import Mathlib

/-!
Shallow embedding of the matchms MSP importer (`matchms/importing/load_from_msp.py`),
the `Spectrum` container (`matchms/Spectrum.py`) and the metadata-harmonization
filters (`add_precursor_mz.py`, `metadata_processing/add_retention.py`,
`repair_parent_mass_from_smiles/repair_smiles_of_salts.py`).

Python floats are modelled as exact rationals (ℚ), Python strings as Lean
`String`/`List Char`, Python dicts as insertion-ordered association lists with
update-in-place semantics, and Python exceptions as an `Except` error type.
-/

/-- Python exception kinds that the modelled code can raise. -/
inductive PyErr where
  | runtimeError
  | valueError
  | keyError
  | indexError
  | typeError
  deriving DecidableEq, Repr

instance {ε α : Type} [DecidableEq ε] [DecidableEq α] : DecidableEq (Except ε α) := fun x y =>
  match x, y with
  | .ok a, .ok b =>
      if h : a = b then .isTrue (congrArg Except.ok h)
      else .isFalse (fun hh => h (Except.ok.inj hh))
  | .error a, .error b =>
      if h : a = b then .isTrue (congrArg Except.error h)
      else .isFalse (fun hh => h (Except.error.inj hh))
  | .ok _, .error _ => .isFalse (fun hh => Except.noConfusion hh)
  | .error _, .ok _ => .isFalse (fun hh => Except.noConfusion hh)

/-- Python whitespace characters (`str.strip`, `\s`, `\S`). -/
def isPySpace (c : Char) : Bool :=
  c = ' ' ∨ c = '\t' ∨ c = '\n' ∨ c = '\r' ∨ c = Char.ofNat 11 ∨ c = Char.ofNat 12

/-- ASCII decimal digit (regex `\d`). -/
def isDigitChar (c : Char) : Bool := '0' ≤ c ∧ c ≤ '9'

/-- Regex word character `\w` (ASCII letters, digits, underscore). -/
def isWordChar (c : Char) : Bool :=
  ('a' ≤ c ∧ c ≤ 'z') ∨ ('A' ≤ c ∧ c ≤ 'Z') ∨ isDigitChar c ∨ c = '_'

/-- A single or double quote character (regex class `["\']`). -/
def isQuoteChar (c : Char) : Bool := c = '"' ∨ c = '\''

/-- Python `str.rstrip()`: drop trailing whitespace. -/
def pyRstrip (s : String) : String :=
  ⟨(s.data.reverse.dropWhile isPySpace).reverse⟩

/-- Python `str.strip()`: drop leading and trailing whitespace. -/
def pyStrip (s : String) : String :=
  ⟨((s.data.dropWhile isPySpace).reverse.dropWhile isPySpace).reverse⟩

/-- Python `str.lower()` (ASCII case folding, which covers the inputs involved). -/
def pyLower (s : String) : String :=
  ⟨s.data.map Char.toLower⟩

/-- Numeric value of a list of ASCII digits, most significant first. -/
def digitsToNat (ds : List Char) : ℕ :=
  ds.foldl (fun acc c => 10 * acc + (c.toNat - '0'.toNat)) 0

/-- Python `int(str)`: optional surrounding whitespace, optional sign, a
nonempty digit string; anything else raises `ValueError` (modelled as `none`). -/
def pyInt (s : String) : Option ℤ :=
  let cs := (pyStrip s).data
  match cs with
  | '+' :: ds => if ds ≠ [] ∧ ds.all isDigitChar then some (digitsToNat ds) else none
  | '-' :: ds => if ds ≠ [] ∧ ds.all isDigitChar then some (-(digitsToNat ds : ℤ)) else none
  | ds => if ds ≠ [] ∧ ds.all isDigitChar then some (digitsToNat ds) else none

/-- Lookup in an insertion-ordered dict modelled as an association list
(first — and by construction only — binding for the key). -/
def pyFind {κ α : Type} [DecidableEq κ] (m : List (κ × α)) (k : κ) : Option α :=
  match m with
  | [] => none
  | (k', v) :: rest => if k = k' then some v else pyFind rest k

/-- Python `d[k] = v`: update the existing binding in place (keeping its
position) or append a new binding at the end. -/
def pyInsert {κ α : Type} [DecidableEq κ] (m : List (κ × α)) (k : κ) (v : α) :
    List (κ × α) :=
  match m with
  | [] => [(k, v)]
  | (k', v') :: rest =>
      if k = k' then (k, v) :: rest else (k', v') :: pyInsert rest k v

/-- Python `d.pop(k)`: remove the binding for `k` (first occurrence). -/
def pyPop {κ α : Type} [DecidableEq κ] (m : List (κ × α)) (k : κ) : List (κ × α) :=
  match m with
  | [] => []
  | (k', v') :: rest => if k = k' then rest else (k', v') :: pyPop rest k

/-! ## Line classifier (`load_from_msp.py`, `contains_metadata` / `_is_golm_peak_format`) -/

/-- `_is_golm_peak_format(rline)`: `re.match(r"(\d+:{1}\d+)", rline) is not None`.
`re.match` anchors only at the start of the string, so this holds exactly when
the line starts with one or more digits, a colon, and at least one further
digit (with arbitrary trailing characters). -/
def _is_golm_peak_format (rline : String) : Bool :=
  let cs := rline.data
  let ds := cs.takeWhile isDigitChar
  let rest := cs.drop ds.length
  !ds.isEmpty && (match rest with
                  | ':' :: c :: _ => isDigitChar c
                  | _ => false)

/-- `contains_metadata(rline)`: the line has a colon and is not in the GOLM
peak format. -/
def contains_metadata (rline : String) : Bool :=
  rline.data.contains ':' && !_is_golm_peak_format rline

/-! ## Peak tokenizer (`get_peak_values`, `get_peak_comment`, `_parse_line_with_peaks`) -/

/-- Exact value of a numeric token with integer digits `ip`, fractional digits
`fp` and optional exponent `ex` (sign flag true = negative exponent). -/
def tokenVal (ip fp : List Char) (ex : Option (Bool × List Char)) : ℚ :=
  let mantissa : ℚ :=
    if fp.isEmpty then ((digitsToNat ip : ℤ) : ℚ)
    else ((digitsToNat (ip ++ fp) : ℤ) : ℚ) / ((10 ^ fp.length : ℕ) : ℚ)
  match ex with
  | none => mantissa
  | some (sgn, ds) =>
      if sgn then mantissa / ((10 ^ digitsToNat ds : ℕ) : ℚ)
      else mantissa * ((10 ^ digitsToNat ds : ℕ) : ℚ)

/-- One step of `re.findall(r'(\d+(?:\.\d+)?(?:e[-+]?\d+)?)', ...)`: try to read
a numeric token at the head of `cs`. The fractional part needs at least one
digit after the dot; the exponent (lowercase `e` only) needs at least one digit
after the optional sign; otherwise these optional groups are not taken. -/
def numTokenAt (cs : List Char) : Option (ℚ × List Char) :=
  let ip := cs.takeWhile isDigitChar
  if ip.isEmpty then none
  else
    let r1 := cs.drop ip.length
    let step2 : List Char × List Char :=
      match r1 with
      | '.' :: rest =>
          let f := rest.takeWhile isDigitChar
          if f.isEmpty then ([], r1) else (f, rest.drop f.length)
      | _ => ([], r1)
    let fp := step2.1
    let r2 := step2.2
    let step3 : Option (Bool × List Char) × List Char :=
      match r2 with
      | 'e' :: '+' :: rest =>
          let d := rest.takeWhile isDigitChar
          if d.isEmpty then (none, r2) else (some (false, d), rest.drop d.length)
      | 'e' :: '-' :: rest =>
          let d := rest.takeWhile isDigitChar
          if d.isEmpty then (none, r2) else (some (true, d), rest.drop d.length)
      | 'e' :: rest =>
          let d := rest.takeWhile isDigitChar
          if d.isEmpty then (none, r2) else (some (false, d), rest.drop d.length)
      | _ => (none, r2)
    some (tokenVal ip fp step3.1, step3.2)

/-- Scan loop of `re.findall` for the numeric-token pattern: at each position
try a match; on success continue after it, otherwise advance one character.
The fuel bounds the number of loop steps (each consumes at least one
character, so `cs.length` suffices). -/
def scanNumsAux : ℕ → List Char → List ℚ
  | 0, _ => []
  | _, [] => []
  | fuel + 1, c :: rest =>
      match numTokenAt (c :: rest) with
      | some (q, r) => q :: scanNumsAux fuel r
      | none => scanNumsAux fuel rest

/-- All numeric tokens of a line, left to right. -/
def findNumTokens (s : String) : List ℚ :=
  scanNumsAux s.data.length s.data

/-- Elements at even indices (`tokens[0::2]`). -/
def sliceEven {α : Type} : List α → List α
  | [] => []
  | [x] => [x]
  | x :: _ :: rest => x :: sliceEven rest

/-- Elements at odd indices (`tokens[1::2]`). -/
def sliceOdd {α : Type} : List α → List α
  | [] => []
  | _ :: rest => sliceEven rest

/-- `get_peak_values(peak)`: extract all numeric tokens; an odd count raises
`RuntimeError("Wrong peak format detected!")`; otherwise even-index tokens are
m/z and odd-index tokens are intensities. -/
def get_peak_values (peak : String) : Except PyErr (List ℚ × List ℚ) :=
  let tokens := findNumTokens peak
  if tokens.length % 2 ≠ 0 then .error .runtimeError
  else .ok (sliceEven tokens, sliceOdd tokens)

/-- `get_peak_comment(rline)`: the first match of `re.findall(r'["\'](.*)["\']', rline)`
is the text strictly between the first and the last quote character (either
kind), existing precisely when the line holds at least two quote characters;
on a match the line is truncated to everything before the first double quote
via `rline.index('"')`, which raises `ValueError` when the line has no double
quote (only `IndexError` — no quoted substring at all — is caught). -/
def get_peak_comment (rline : String) : Except PyErr (Option String × String) :=
  let cs := rline.data
  if (cs.filter isQuoteChar).length < 2 then .ok (none, rline)
  else
    let afterFirst := (cs.dropWhile (fun c => !isQuoteChar c)).drop 1
    let comment : List Char := ((afterFirst.reverse.dropWhile (fun c => !isQuoteChar c)).drop 1).reverse
    if cs.contains '"' then .ok (some ⟨comment⟩, ⟨cs.takeWhile (fun c => c ≠ '"')⟩)
    else .error .valueError

/-- `_parse_line_with_peaks(rline)`: comment extraction, then numeric parsing
of the (possibly truncated) line. -/
def _parse_line_with_peaks (rline : String) :
    Except PyErr (List ℚ × List ℚ × Option String) := do
  let (comment, rl) ← get_peak_comment rline
  let (mz, intensities) ← get_peak_values rl
  return (mz, intensities, comment)

/-! ## Metadata line tokenizer (`parse_metadata`)

The nested "Comments" sub-syntax uses
`re.findall(r'(\S+)="([^"]*)"|"(\w+)=([^"]*)"|"([^"]*)=([^"]*)"|(\S+)=(\d+(?:\.\d*)?)', ...)`:
at each scan position the four alternatives are tried in order; `findall`
returns the 8-tuple of groups of each match. Greedy `\S+` with backtracking
picks the rightmost viable split point; `[^"]*` runs to the next/last
reachable quote. -/

/-- Alternative 1, `(\S+)="([^"]*)"`, tried with the split point `i`
(position of the `=`, scanned right to left: greedy `\S+` backtracking).
The counter `k` drives the descent; the candidate position is `k`. -/
def a1Try (cs : List Char) : ℕ → Option (List String × List Char)
  | 0 => none
  | k + 1 =>
      let i := k + 1
      if cs.get? i = some '=' ∧ cs.get? (i + 1) = some '"' then
        let tl := cs.drop (i + 2)
        let v := tl.takeWhile (fun c => c ≠ '"')
        if (tl.drop v.length).head? = some '"' then
          some ([⟨cs.take i⟩, ⟨v⟩, "", "", "", "", "", ""], tl.drop (v.length + 1))
        else a1Try cs k
      else a1Try cs k

/-- Alternative 2, `"(\w+)=([^"]*)"`. -/
def a2Try (cs : List Char) : Option (List String × List Char) :=
  match cs with
  | '"' :: rest =>
      let w := rest.takeWhile isWordChar
      if w.isEmpty then none
      else if rest.get? w.length = some '=' then
        let tl := rest.drop (w.length + 1)
        let v := tl.takeWhile (fun c => c ≠ '"')
        if (tl.drop v.length).head? = some '"' then
          some (["", "", ⟨w⟩, ⟨v⟩, "", "", "", ""], tl.drop (v.length + 1))
        else none
      else none
  | _ => none

/-- Alternative 3, `"([^"]*)=([^"]*)"`: body up to the next quote, split at
the last `=` inside it (greedy first group). -/
def a3Try (cs : List Char) : Option (List String × List Char) :=
  match cs with
  | '"' :: rest =>
      let body := rest.takeWhile (fun c => c ≠ '"')
      if (rest.drop body.length).head? = some '"' ∧ body.contains '=' then
        let revTail := body.reverse.takeWhile (fun c => c ≠ '=')
        let left := body.take (body.length - revTail.length - 1)
        let right := revTail.reverse
        some (["", "", "", "", ⟨left⟩, ⟨right⟩, "", ""], rest.drop (body.length + 1))
      else none
  | _ => none

/-- Alternative 4, `(\S+)=(\d+(?:\.\d*)?)`: rightmost `=` followed by a digit;
the number is a greedy digit run, optionally a dot and further digits (the
digits after the dot may be empty). -/
def a4Try (cs : List Char) : ℕ → Option (List String × List Char)
  | 0 => none
  | k + 1 =>
      let i := k + 1
      if cs.get? i = some '=' ∧ (cs.drop (i + 1)).head?.any isDigitChar then
        let d1 := (cs.drop (i + 1)).takeWhile isDigitChar
        let after := cs.drop (i + 1 + d1.length)
        match after with
        | '.' :: rest2 =>
            let d2 := rest2.takeWhile isDigitChar
            some (["", "", "", "", "", "", ⟨cs.take i⟩, ⟨d1 ++ '.' :: d2⟩],
                  rest2.drop d2.length)
        | _ =>
            some (["", "", "", "", "", "", ⟨cs.take i⟩, ⟨d1⟩], after)
      else a4Try cs k

/-- Try one match of the four-alternative pattern at the current position.
`\S+` covers at most the leading non-whitespace run, so its split points
range over `1 .. run.length`. -/
def matchNestedAt (cs : List Char) : Option (List String × List Char) :=
  let runLen := (cs.takeWhile (fun c => !isPySpace c)).length
  match a1Try cs runLen with
  | some r => some r
  | none =>
      match a2Try cs with
      | some r => some r
      | none =>
          match a3Try cs with
          | some r => some r
          | none => a4Try cs runLen

/-- `re.findall` scan loop for the nested pattern (fuel bounds the steps). -/
def scanNestedAux : ℕ → List Char → List (List String)
  | 0, _ => []
  | _, [] => []
  | fuel + 1, c :: rest =>
      match matchNestedAt (c :: rest) with
      | some (groups, r) => groups :: scanNestedAux fuel r
      | none => scanNestedAux fuel rest

/-- All matches of the nested "Comments" pattern (the `'` → `"` replacement is
applied by the caller). -/
def findallNested (cs : List Char) : List (List String) :=
  scanNestedAux cs.length cs

/-- Store one nested key/value token into `params` (source lines 158–164):
the groups are filtered for non-empty strings, `match[0]`/`match[1]` become
key and value (fewer than two non-empty groups raises `IndexError`, swallowed
by the bare `except`); a duplicate key equal to `"smiles"` is stored under
`"smiles_2"` instead of overwriting, every other key is assigned directly
(overwriting any previous value). -/
def applyNestedMatch (params : List (String × String)) (groups : List String) :
    List (String × String) :=
  match groups.filter (fun g => g ≠ "") with
  | key :: value :: _ =>
      if (pyFind params (pyStrip (pyLower key))).isSome ∧ pyStrip (pyLower key) = "smiles" then
        pyInsert params (pyLower key ++ "_2") (pyStrip value)
      else
        pyInsert params (pyStrip (pyLower key)) (pyStrip value)
  | _ => params

/-- `parse_metadata(rline, params)`: split at the first colon; a "comments"
key whose value holds `=` is scanned with the nested pattern (after replacing
single quotes by double quotes); if that scan found no matches the whole line
is stored as one scalar entry (lower-cased key, stripped value). A line with
no colon raises `IndexError` (`splitted_line[1]`). -/
def parse_metadata (rline : String) (params : List (String × String)) :
    Except PyErr (List (String × String)) :=
  let cs := rline.data
  if cs.contains ':' then
    let key_part : String := ⟨cs.takeWhile (fun c => c ≠ ':')⟩
    let value_part : String := ⟨(cs.dropWhile (fun c => c ≠ ':')).drop 1⟩
    let matchList :=
      if pyLower key_part = "comments" ∧ value_part.data.contains '=' then
        findallNested (value_part.data.map (fun c => if c = '\'' then '"' else c))
      else []
    let params1 := matchList.foldl applyNestedMatch params
    if matchList.isEmpty then
      .ok (pyInsert params1 (pyLower key_part) (pyStrip value_part))
    else .ok params1
  else .error .indexError

/-! ## Record assembler (`parse_msp_file`) -/

/-- Mutable loop state of `parse_msp_file`: metadata accumulator, mass and
intensity arrays, peak comments, and the running peak counter. -/
structure MspState where
  params : List (String × String)
  masses : List ℚ
  intensities : List ℚ
  peak_comments : List (ℚ × String)
  peakscount : ℕ
  deriving DecidableEq, Repr

/-- The fresh accumulator state (also the state right after a record is
emitted). -/
def initMspState : MspState := ⟨[], [], [], [], 0⟩

/-- One record yielded by `parse_msp_file` (the dict with keys `'params'`,
`'m/z array'`, `'intensity array'`, `'peak comments'`). -/
structure MspRecord where
  params : List (String × String)
  mzArray : List ℚ
  intensityArray : List ℚ
  peakComments : List (ℚ × String)
  deriving DecidableEq, Repr

/-- One iteration of the `parse_msp_file` loop on a raw input line: rstrip,
skip empty lines, metadata lines via `parse_metadata`, peak lines via comment
and value extraction; a present comment is keyed by the last appended mass
(`masses[-1]`, `IndexError` when empty); the counter grows by the number of
parsed pairs and the record is emitted — and the whole state reset — exactly
when `int(params['num peaks'])` (a missing key raises `KeyError`, an
unparsable value `ValueError`) equals the updated counter. -/
def peakCommentsStep (prev : List (ℚ × String)) (comment : Option String)
    (masses : List ℚ) : Except PyErr (List (ℚ × String)) :=
  match comment with
  | some c =>
      match masses.getLast? with
      | some m => .ok (pyInsert prev m c)
      | none => .error .indexError
  | none => .ok prev

def processLine (st : MspState) (line : String) :
    Except PyErr (MspState × Option MspRecord) :=
  let rline := pyRstrip line
  if rline.data.isEmpty then .ok (st, none)
  else if contains_metadata rline then
    match parse_metadata rline st.params with
    | .error e => .error e
    | .ok ps => .ok ({ st with params := ps }, none)
  else
    match get_peak_comment rline with
    | .error e => .error e
    | .ok (comment, rl) =>
      match get_peak_values rl with
      | .error e => .error e
      | .ok (mz, ints) =>
        let masses := st.masses ++ mz
        let intensities := st.intensities ++ ints
        match peakCommentsStep st.peak_comments comment masses with
        | .error e => .error e
        | .ok peakComments =>
          let count := st.peakscount + mz.length
          match pyFind st.params "num peaks" with
          | none => .error .keyError
          | some nstr =>
            match pyInt nstr with
            | none => .error .valueError
            | some n =>
              if n = (count : ℤ) then
                .ok (initMspState, some ⟨st.params, masses, intensities, peakComments⟩)
              else
                .ok ({ params := st.params, masses := masses,
                       intensities := intensities, peak_comments := peakComments,
                       peakscount := count }, none)

/-- Run the `parse_msp_file` loop from a given state over a list of raw lines,
collecting yielded records in order; an uncaught exception ends the run,
reported together with the records yielded before it. -/
def runMspFrom (st : MspState) : List String → List MspRecord × MspState × Option PyErr
  | [] => ([], st, none)
  | l :: ls =>
      match processLine st l with
      | .error e => ([], st, some e)
      | .ok (st', none) => runMspFrom st' ls
      | .ok (st', some r) =>
          let rest := runMspFrom st' ls
          (r :: rest.1, rest.2.1, rest.2.2)

/-- `parse_msp_file(filename)` on the file's lines: the stream of yielded
record dicts, together with the exception (if any) that aborted the parse. -/
def parse_msp_file (lines : List String) : List MspRecord × Option PyErr :=
  let res := runMspFrom initMspState lines
  (res.1, res.2.2)

/-! ## Spectrum entity (`Spectrum.py`) -/

/-- Python values appearing as metadata entries in the modelled code: strings,
floats, lists of floats (e.g. `pepmass` tuples), float-keyed comment dicts
(`peak_comments`), numpy float arrays, and `None`. -/
inductive PyVal where
  | str (s : String)
  | float (q : ℚ)
  | flist (l : List ℚ)
  | qdict (d : List (ℚ × String))
  | arr (a : List ℚ)
  | pynone
  deriving DecidableEq, Repr

/-- Python `dict == dict` for float-keyed comment dicts: mapping equality,
independent of insertion order. -/
def qdictEq (a b : List (ℚ × String)) : Bool :=
  a.all (fun kv => pyFind b kv.1 = some kv.2) ∧ b.all (fun kv => pyFind a kv.1 = some kv.2)

/-- Ordinary Python `==` between the modelled values (used for non-array
metadata values). A comparison of a scalar with a numpy array, which in
Python yields an array and then fails the boolean conversion, is modelled as
`false` (that code path raises and is outside every claim's scope). -/
def pyValEq : PyVal → PyVal → Bool
  | .str a, .str b => a = b
  | .float a, .float b => a = b
  | .flist a, .flist b => a = b
  | .qdict a, .qdict b => qdictEq a b
  | .arr a, .arr b => a = b
  | .pynone, .pynone => true
  | _, _ => false

/-- The per-value comparison of `Spectrum.__metadata_eq`: a numpy-array value
is compared with `numpy.all(value == other)` (element-wise for an equally
shaped array, broadcast against a scalar float), every other value by
ordinary equality. -/
def metaValueEq (v w : PyVal) : Bool :=
  match v with
  | .arr a =>
      match w with
      | .arr b => a = b
      | .float q => a.all (fun x => x = q)
      | _ => false
  | _ => pyValEq v w

/-- Position-wise comparison of `list(self.metadata.values())` against
`list(other_metadata.values())` (the source indexes the second list by the
positions of the first; with equal key sets both dicts have the same size,
so a length mismatch — which would raise `IndexError` — cannot occur for
genuine dicts). -/
def valuesEqPositional : List PyVal → List PyVal → Bool
  | [], [] => true
  | v :: vs, w :: ws => metaValueEq v w && valuesEqPositional vs ws
  | _, _ => false

/-- `Spectrum.__metadata_eq`: `self.metadata.keys() != other_metadata.keys()`
compares the key views as sets; the values are then compared position by
position in insertion order. -/
def metadataEqB (m1 m2 : List (String × PyVal)) : Bool :=
  (m1.all (fun kv => (pyFind m2 kv.1).isSome) ∧
   m2.all (fun kv => (pyFind m1 kv.1).isSome)) ∧
  valuesEqPositional (m1.map Prod.snd) (m2.map Prod.snd)

/-- Modelled from the spec: the peak-list container (`Spikes`, whose module is
not part of the provided sources) is an mz array and an intensity array of
equal length. -/
structure Spikes where
  mz : List ℚ
  intensities : List ℚ
  deriving DecidableEq, Repr

/-- Modelled from the spec: `Spikes` equality requires equal peak lists. -/
def spikesEq (a b : Spikes) : Bool :=
  a.mz = b.mz ∧ a.intensities = b.intensities

/-- Losses comparison (`self.losses == other.losses`): both absent, or equal
peak lists. -/
def lossesEq : Option Spikes → Option Spikes → Bool
  | none, none => true
  | some a, some b => spikesEq a b
  | _, _ => false

/-- The `Spectrum` entity: peaks, optional losses, and the insertion-ordered
metadata dict. -/
structure PySpectrum where
  peaks : Spikes
  losses : Option Spikes
  metadata : List (String × PyVal)
  deriving DecidableEq, Repr

/-- `Spectrum.__eq__`: equal peaks, equal losses, and `__metadata_eq`. -/
def spectrumEq (a b : PySpectrum) : Bool :=
  spikesEq a.peaks b.peaks && lossesEq a.losses b.losses &&
    metadataEqB a.metadata b.metadata

/-- `spectrum.get(key)` (metadata lookup, default `None` modelled as `none`). -/
def spectrumGet (s : PySpectrum) (k : String) : Option PyVal :=
  pyFind s.metadata k

/-- `spectrum.set(key, value)`. -/
def spectrumSet (s : PySpectrum) (k : String) (v : PyVal) : PySpectrum :=
  { s with metadata := pyInsert s.metadata k v }

/-- numpy's default absolute tolerance in `numpy.isclose`. -/
def npIscloseAtol : ℚ := 1 / 100000000

/-- `numpy.isclose(a, b, rtol=rtol)`: `|a - b| <= atol + rtol * |b|` with the
default `atol = 1e-8`; the relative part scales with the second argument. -/
def npIsclose (a b rtol : ℚ) : Bool :=
  |a - b| ≤ npIscloseAtol + rtol * |b|

/-- `Spectrum._peak_comments_mz_tolerance` default (`1e-05`). -/
def peakCommentsMzTolerance : ℚ := 1 / 100000

/-- `ndarray.argmax()` on a boolean array: index of the first `True`, and `0`
when every entry is `False`. -/
def argmaxBool (l : List Bool) : ℕ :=
  if l.contains true then l.findIdx (fun b => b) else 0

/-- Body of the `for key in list(self.metadata["peak_comments"].keys())` loop
of `Spectrum._reiterate_peak_comments`: a key absent from the new mz array is
re-keyed to `peaks.mz[isclose(key, peaks.mz, rtol).argmax()]` when some new
mz is `isclose`, joining with `"; "` any comment already present at that new
key, and the old key is popped; with no close new mz the key is just popped.
(The lookup of the old key's comment always succeeds for a genuine dict, so
its missing case — which would raise in Python — is given a dummy value.) -/
def reiterateStep (newMz : List ℚ) (rtol : ℚ) (d : List (ℚ × String)) (key : ℚ) :
    List (ℚ × String) :=
  if newMz.contains key then d
  else
    let flags := newMz.map (fun m => npIsclose key m rtol)
    if flags.contains true then
      let new_key := newMz.getD (argmaxBool flags) 0
      let comment :=
        match pyFind d key with
        | some c =>
            match pyFind d new_key with
            | some c0 => c0 ++ "; " ++ c
            | none => c
        | none => ""
      pyPop (pyInsert d new_key comment) key
    else pyPop d key

/-- `Spectrum._reiterate_peak_comments(peaks)`: no-op unless the
`peak_comments` metadata value is a dict; otherwise folds `reiterateStep`
over a snapshot of the dict's keys and stores the updated dict back. -/
def _reiterate_peak_comments (metadata : List (String × PyVal)) (peaks : Spikes)
    (rtol : ℚ) : List (String × PyVal) :=
  match pyFind metadata "peak_comments" with
  | some (.qdict d) =>
      let d' := (d.map Prod.fst).foldl (reiterateStep peaks.mz rtol) d
      pyInsert metadata "peak_comments" (.qdict d')
  | _ => metadata

/-- The `Spectrum.peaks` property setter: when the `peak_comments` metadata
value is a dict, re-key it against the new peaks, then store the new peaks. -/
def setPeaks (s : PySpectrum) (value : Spikes) : PySpectrum :=
  let md :=
    match pyFind s.metadata "peak_comments" with
    | some (.qdict _) => _reiterate_peak_comments s.metadata value peakCommentsMzTolerance
    | _ => s.metadata
  { s with metadata := md, peaks := value }

/-- `Spectrum.__init__(mz, intensities, metadata)`: the metadata dict is
stored first and the peaks are then assigned through the `peaks` setter (so a
`peak_comments` metadata dict is re-keyed against the spectrum's own mz
array); losses start as `None`. -/
def mkSpectrum (mz intensities : List ℚ) (metadata : List (String × PyVal)) :
    PySpectrum :=
  setPeaks { peaks := ⟨[], []⟩, losses := none, metadata := metadata } ⟨mz, intensities⟩

/-- `Spectrum.clone()`: a new `Spectrum` built from (copies of) the peak
arrays and the metadata, with the losses carried over. -/
def cloneSpectrum (s : PySpectrum) : PySpectrum :=
  { mkSpectrum s.peaks.mz s.peaks.intensities s.metadata with losses := s.losses }

/-! ## Spectrum builder stage of `load_from_msp` -/

/-- `np.all(mz[:-1] <= mz[1:])`: the array is non-decreasing. -/
def nonDecreasing : List ℚ → Bool
  | [] => true
  | [_] => true
  | x :: y :: rest => x ≤ y && nonDecreasing (y :: rest)

/-- The metadata dict handed to the `Spectrum` constructor: the record's
`params` (string values), with the peak-comments dict merged in under
`"peak_comments"` when non-empty. -/
def buildMeta (r : MspRecord) : List (String × PyVal) :=
  let metadata := r.params.map (fun kv => (kv.1, PyVal.str kv.2))
  if r.peakComments.isEmpty then metadata
  else pyInsert metadata "peak_comments" (.qdict r.peakComments)

/-- Sort step of `load_from_msp`: when the mz array is not already sorted,
reorder both arrays by the mz sort permutation. -/
def sortPeaksIfNeeded (mz intensities : List ℚ) : List ℚ × List ℚ :=
  if nonDecreasing mz then (mz, intensities)
  else
    let sorted := (mz.zip intensities).mergeSort (fun a b => a.1 ≤ b.1)
    (sorted.map Prod.fst, sorted.map Prod.snd)

/-- One record of the `load_from_msp` output stream. `Modelled from the spec:`
the `Spikes` constructor invoked by `Spectrum.__init__` is not part of the
provided sources; per the spec the builder yields `None` (the `except` around
the `yield Spectrum(...)`) when construction fails on empty peak arrays or
inconsistent lengths. -/
def buildSpectrumFromRecord (r : MspRecord) : Option PySpectrum :=
  let sorted := sortPeaksIfNeeded r.mzArray r.intensityArray
  if sorted.1.isEmpty ∨ sorted.1.length ≠ sorted.2.length then none
  else some (mkSpectrum sorted.1 sorted.2 (buildMeta r))

/-- `load_from_msp(filename)`: the stream of `Optional[Spectrum]` values
produced before any uncaught parser exception, together with that exception.
Only `Spectrum` construction errors are caught (becoming `None` entries);
errors raised while advancing `parse_msp_file` propagate. -/
def load_from_msp (lines : List String) :
    List (Option PySpectrum) × Option PyErr :=
  let res := parse_msp_file lines
  (res.1.map buildSpectrumFromRecord, res.2)

/-! ## Metadata harmonization filters -/

/-- Python `float(str)`: optional surrounding whitespace and sign, then
`digits[.digits]`, `.digits` or `digits.`, with an optional `e`/`E` exponent.
(The special spellings `inf`/`nan` are not modelled; no claim involves
them.) -/
def pyFloat (s : String) : Option ℚ :=
  let cs := (pyStrip s).data
  let sgn : Bool × List Char :=
    match cs with
    | '+' :: r => (false, r)
    | '-' :: r => (true, r)
    | r => (false, r)
  let ip := sgn.2.takeWhile isDigitChar
  let afterInt := sgn.2.drop ip.length
  let frac : Option (List Char × List Char) :=
    match afterInt with
    | '.' :: r => some (r.takeWhile isDigitChar, r.drop (r.takeWhile isDigitChar).length)
    | r => some ([], r)
  match frac with
  | none => none
  | some (fp, rest) =>
    if ip.isEmpty ∧ fp.isEmpty then none
    else
      let expPart : Option (Option (Bool × List Char)) :=
        match rest with
        | [] => some none
        | e :: r =>
          if e = 'e' ∨ e = 'E' then
            let esgn : Bool × List Char :=
              match r with
              | '+' :: r2 => (false, r2)
              | '-' :: r2 => (true, r2)
              | r2 => (false, r2)
            if ¬esgn.2.isEmpty ∧ esgn.2.all isDigitChar then some (some (esgn.1, esgn.2))
            else none
          else none
      match expPart with
      | none => none
      | some ex =>
          let v := tokenVal ip fp ex
          some (if sgn.1 then -v else v)

/-- `re.search(r'^[+-]?(\d*\.)?\d+\s*(min|s|h|ms)', value)` used by
`_safe_convert_to_float`: optional sign, either `digits` or `digits.digits`
(with at least one digit after a dot when the dot group is taken), optional
whitespace, then one of the unit alternatives as a prefix of the rest. -/
def rtUnitMatch (cs : List Char) : Bool :=
  let cs1 :=
    match cs with
    | '+' :: r => r
    | '-' :: r => r
    | r => r
  let a := cs1.takeWhile isDigitChar
  let afterA := cs1.drop a.length
  let numTail : Option (List Char) :=
    match afterA with
    | '.' :: r =>
        let b := r.takeWhile isDigitChar
        if b.isEmpty then none else some (r.drop b.length)
    | r => if a.isEmpty then none else some r
  match numTail with
  | none => false
  | some tl =>
      let tl2 := tl.dropWhile isPySpace
      match tl2 with
      | 'm' :: 'i' :: 'n' :: _ => true
      | 'm' :: 's' :: _ => true
      | 's' :: _ => true
      | 'h' :: _ => true
      | _ => false

/-- Python `str.split(sep)` with a one-character separator (every occurrence
splits; adjacent separators produce empty parts). -/
def pySplitChar (sep : Char) (s : String) : List String :=
  let rec go : List Char → List Char → List String
    | [], acc => [⟨acc.reverse⟩]
    | c :: rest, acc =>
        if c = sep then ⟨acc.reverse⟩ :: go rest [] else go rest (c :: acc)
  go s.data []

/-- The `conversion` dict `\x7b"min": 60, "sec": 1, "s": 1, "h": 3600,
"ms": 1e-3, "sec": 60\x7d` — the duplicated `"sec"` literal makes the later
value 60 win. -/
def rtConversion (unit : String) : Option ℚ :=
  if unit = "min" then some 60
  else if unit = "sec" then some 60
  else if unit = "s" then some 1
  else if unit = "h" then some 3600
  else if unit = "ms" then some (1 / 1000)
  else none

/-- Python `float(value)` over the modelled value kinds (`ValueError` /
`TypeError` as `none`). -/
def pyFloatOfVal : PyVal → Option ℚ
  | .float q => some q
  | .str s => pyFloat s
  | _ => none

/-- The generic tail of `_safe_convert_to_float`: `float(value)`, discarding
negative results; conversion errors give `None`. -/
def genericFloatNonNeg (v : PyVal) : Option ℚ :=
  match pyFloatOfVal v with
  | some q => if q ≥ 0 then some q else none
  | none => none

/-- `_safe_convert_to_float(value)`: a singleton list is unwrapped (longer
lists give `None`); a string is stripped, and when it matches the
number-plus-unit pattern it is split on single spaces into exactly two parts
whose product `float(val) * conversion[unit]` is returned directly (inner
failures give `None`, and note no negativity check on this path); otherwise —
as for non-string values — `float(value)` with negatives discarded, `None` on
conversion failure. -/
def _safe_convert_to_float (value : PyVal) : Option ℚ :=
  let unwrapped : Option PyVal :=
    match value with
    | .flist l =>
        match l with
        | [x] => some (.float x)
        | _ => none
    | v => some v
  match unwrapped with
  | none => none
  | some v =>
    match v with
    | .str s0 =>
        let s := pyStrip s0
        if rtUnitMatch s.data then
          match pySplitChar ' ' s with
          | [val, unit] =>
              match pyFloat val, rtConversion unit with
              | some q, some c => some (q * c)
              | _, _ => none
          | _ => none
        else genericFloatNonNeg (.str s)
    | w => genericFloatNonNeg w

/-- `_accepted_keys` of `add_precursor_mz`. -/
def _accepted_keys : List String := ["precursor_mz", "precursormz", "precursor_mass"]

/-- `get_first_common_element(first, second)`: first element of `first` also
contained in `second`. -/
def get_first_common_element (first second : List String) : Option String :=
  first.find? (fun x => second.contains x)

/-- Python `value[0]` on the modelled values (`pepmass[0]`). -/
def pyIndex0 : PyVal → Except PyErr PyVal
  | .flist (x :: _) => .ok (.float x)
  | .flist [] => .error .indexError
  | .arr (x :: _) => .ok (.float x)
  | .arr [] => .error .indexError
  | .str ⟨c :: _⟩ => .ok (.str ⟨[c]⟩)
  | .str ⟨[]⟩ => .error .indexError
  | .qdict _ => .error .keyError
  | .float _ => .error .typeError
  | .pynone => .error .typeError

/-- `add_precursor_mz(spectrum_in)`: clone, find the first metadata key among
the accepted precursor keys; a string value is converted with
`float(value.strip())` — an unparsable string raises `ValueError`, there is
no try/except here — a float value is copied to `"precursor_mz"`, and with
no value at all the `pepmass[0]` fallback applies when it is a float. -/
def add_precursor_mz (spectrum_in : Option PySpectrum) :
    Except PyErr (Option PySpectrum) :=
  match spectrum_in with
  | none => .ok none
  | some sIn =>
    let spectrum := cloneSpectrum sIn
    let key? := get_first_common_element (spectrum.metadata.map Prod.fst) _accepted_keys
    let precursor : Option PyVal :=
      match key? with
      | some k => spectrumGet spectrum k
      | none => none
    match precursor with
    | some (.str v) =>
        match pyFloat (pyStrip v) with
        | some q => .ok (some (spectrumSet spectrum "precursor_mz" (.float q)))
        | none => .error .valueError
    | some (.float q) => .ok (some (spectrumSet spectrum "precursor_mz" (.float q)))
    | some .pynone | none =>
        (match spectrumGet spectrum "pepmass" with
         | none | some .pynone => .ok (some spectrum)
         | some pm =>
             match pyIndex0 pm with
             | .error e => .error e
             | .ok (.float q) => .ok (some (spectrumSet spectrum "precursor_mz" (.float q)))
             | .ok _ => .ok (some spectrum))
    | some _ => .ok (some spectrum)

/-- `itertools.combinations(l, r)`: all `r`-element subsequences of `l` in
positional order. -/
def combinationsPy {α : Type} : ℕ → List α → List (List α)
  | 0, _ => [[]]
  | _ + 1, [] => []
  | r + 1, x :: xs => (combinationsPy r xs).map (x :: ·) ++ combinationsPy (r + 1) xs

/-- `create_possible_ions(smiles)`: for a dotted SMILES, every non-empty
combination of its `.`-separated parts, paired with the remaining parts
(removed by value, first occurrence), both re-joined with dots. -/
def create_possible_ions (smiles : String) : List (String × String) :=
  if smiles.data.contains '.' then
    let single_ions := pySplitChar '.' smiles
    (List.range' 1 single_ions.length).flatMap (fun r =>
      (combinationsPy r single_ions).map (fun combination =>
        (String.intercalate "." combination,
         String.intercalate "." (combination.foldl (fun acc u => acc.erase u) single_ions))))
  else []

/-- `repair_smiles_of_salts(spectrum_in, mass_tolerance)`: clone; a SMILES
without ion parts (`create_possible_ions` empty) returns the clone
unchanged; otherwise the first ion combination whose monoisotopic mass is
within `mass_tolerance` of the parent mass replaces the SMILES, with the
removed ions recorded under `"salt_ions"`. The mass of an ion is computed by
`get_monoisotopic_neutral_mass`, whose module is not part of the provided
sources; it is a parameter `massFn` here (only reachable for dotted SMILES).
A missing/non-string SMILES raises (`"." in smiles` on `None`), as does a
missing/non-float parent mass reached in the loop. -/
def repair_smiles_of_salts (massFn : String → ℚ) (spectrum_in : Option PySpectrum)
    (mass_tolerance : ℚ) : Except PyErr (Option PySpectrum) :=
  match spectrum_in with
  | none => .ok none
  | some sIn =>
    let spectrum := cloneSpectrum sIn
    match spectrumGet spectrum "smiles" with
    | some (.str smiles) =>
        let combos := create_possible_ions smiles
        if combos.isEmpty then .ok (some spectrum)
        else
          match spectrumGet spectrum "parent_mass" with
          | some (.float parent_mass) =>
              (match combos.find? (fun c => |parent_mass - massFn c.1| < mass_tolerance) with
               | some (ion, not_used_ions) =>
                   .ok (some (spectrumSet (spectrumSet (cloneSpectrum spectrum)
                          "smiles" (.str ion)) "salt_ions" (.str not_used_ions)))
               | none => .ok (some spectrum))
          | _ => .error .typeError
    | _ => .error .typeError

/-- The exception pattern named by the spec and the claim: a line consisting
solely of `<integer>:<integer>` — digits, one colon, digits, and nothing
else. Stated from the claim's wording, for comparison with the
implementation's `_is_golm_peak_format`. -/
def lineIsSolelyIntColonInt (s : String) : Bool :=
  let ds := s.data.takeWhile isDigitChar
  match s.data.drop ds.length with
  | ':' :: es => !ds.isEmpty && !es.isEmpty && es.all isDigitChar
  | _ => false

/-- Invariant of the `parse_msp_file` loop state: the mass and intensity
arrays both have exactly `peakscount` entries. -/
def mspInv (st : MspState) : Prop :=
  st.masses.length = st.peakscount ∧ st.intensities.length = st.masses.length

/-- A record whose declared `num peaks` metadata value parses to an integer
equal to the number of emitted peaks (and whose two peak arrays agree in
length). -/
def recordNumPeaksOk (r : MspRecord) : Prop :=
  ∃ s n, pyFind r.params "num peaks" = some s ∧ pyInt s = some n ∧
    n = (r.mzArray.length : ℤ) ∧ r.intensityArray.length = r.mzArray.length

/-- Every key of a `peak_comments` metadata dict occurs in the spectrum's own
mz array (the state of affairs established by `Spectrum.__init__` itself). -/
def peakCommentKeysInMz (s : PySpectrum) : Bool :=
  match pyFind s.metadata "peak_comments" with
  | some (.qdict d) => d.all (fun kv => s.peaks.mz.contains kv.1)
  | _ => true

/-! ## Theorems -/

theorem drop_length_takeWhile {α : Type} (p : α → Bool) (l : List α) :
    l.drop (l.takeWhile p).length = l.dropWhile p := by
  induction l with
  | nil => rfl
  | cons c cs ih =>
      cases h : p c <;>
        simp [List.takeWhile_cons, List.dropWhile_cons, h, ih]

theorem golm_iff (l : String) :
    _is_golm_peak_format l = true ↔
      ∃ ds c rest, l.data = ds ++ ':' :: c :: rest ∧ ds ≠ [] ∧
        (∀ d ∈ ds, isDigitChar d = true) ∧ isDigitChar c = true := by
  have hsplit := List.takeWhile_append_dropWhile isDigitChar l.data
  constructor
  · intro h
    simp only [_is_golm_peak_format, drop_length_takeWhile, Bool.and_eq_true] at h
    obtain ⟨h1, h2⟩ := h
    split at h2
    · rename_i c rest heq
      exact ⟨l.data.takeWhile isDigitChar, c, rest, (hsplit.symm.trans (by rw [heq])),
             by simpa using h1, fun d hd => List.mem_takeWhile_imp hd, h2⟩
    · exact absurd h2 (by simp)
  · rintro ⟨ds, c, rest, hdecomp, hne, hds, hc⟩
    simp only [_is_golm_peak_format, drop_length_takeWhile, Bool.and_eq_true]
    have hcolon : isDigitChar ':' = false := by decide
    have htw : l.data.takeWhile isDigitChar = ds := by
      rw [hdecomp, List.takeWhile_append_of_pos hds, List.takeWhile_cons_of_neg (by simp [hcolon])]
      simp
    have hdw : l.data.dropWhile isDigitChar = ':' :: c :: rest := by
      rw [hdecomp, List.dropWhile_append_of_pos hds,
          List.dropWhile_cons_of_neg (by simp [hcolon])]
    rw [htw, hdw]
    exact ⟨by simpa using hne, hc⟩

/-- C2, counterexample: the line `"12:34x"` contains a colon and is not
solely `<integer>:<integer>`, so by the claim it should be classified as
Metadata; `contains_metadata` nevertheless returns `false` (Peak), because
`re.match(r"(\d+:{1}\d+)", ...)` only anchors at the start of the line and
accepts arbitrary trailing characters. -/
theorem C2_counterexample :
    "12:34x".data.contains ':' = true ∧
      lineIsSolelyIntColonInt "12:34x" = false ∧
      contains_metadata "12:34x" = false := by decide

/-- C2, amended: a non-empty line is classified as Metadata exactly when it
contains a colon and does not START with `<integer>:<digit>` — one or more
digits, a colon, and at least one further digit, with arbitrary trailing
characters (a prefix match, not a whole-line match); every other colon-bearing
line is Metadata and every colon-free line is Peak. -/
theorem C2_classifier_amended (l : String) :
    contains_metadata l = true ↔
      (l.data.contains ':' = true ∧
        ¬ ∃ ds c rest, l.data = ds ++ ':' :: c :: rest ∧ ds ≠ [] ∧
            (∀ d ∈ ds, isDigitChar d = true) ∧ isDigitChar c = true) := by
  unfold contains_metadata
  rw [Bool.and_eq_true]
  constructor
  · rintro ⟨h1, h2⟩
    refine ⟨h1, fun hex => ?_⟩
    rw [(golm_iff l).2 hex] at h2
    exact absurd h2 (by decide)
  · rintro ⟨h1, h2⟩
    refine ⟨h1, ?_⟩
    cases hg : _is_golm_peak_format l
    · rfl
    · exact absurd ((golm_iff l).1 hg) h2

theorem sliceEven_length {α : Type} : ∀ (l : List α),
    (sliceEven l).length = (l.length + 1) / 2
  | [] => by simp [sliceEven]
  | [_] => by simp [sliceEven]
  | _ :: _ :: rest => by
      simp only [sliceEven, List.length_cons, sliceEven_length rest]
      omega

theorem sliceOdd_length {α : Type} : ∀ (l : List α), (sliceOdd l).length = l.length / 2
  | [] => by simp [sliceOdd]
  | _ :: rest => by
      simp only [sliceOdd, List.length_cons, sliceEven_length rest]

theorem get_peak_values_lengths {s : String} {mz ints : List ℚ}
    (h : get_peak_values s = .ok (mz, ints)) : ints.length = mz.length := by
  simp only [get_peak_values] at h
  split at h
  · exact absurd h (by simp)
  · rename_i heven
    rw [Except.ok.injEq, Prod.mk.injEq] at h
    obtain ⟨rfl, rfl⟩ := h
    rw [sliceEven_length, sliceOdd_length]
    omega

theorem processLine_step {st : MspState} {line : String} {st' : MspState}
    {out : Option MspRecord} (hinv : mspInv st)
    (h : processLine st line = .ok (st', out)) :
    mspInv st' ∧ ∀ r, out = some r → st' = initMspState ∧ recordNumPeaksOk r := by
  obtain ⟨hinv1, hinv2⟩ := hinv
  simp only [processLine] at h
  by_cases h0 : (pyRstrip line).data.isEmpty = true
  · rw [if_pos h0] at h
    rw [Except.ok.injEq, Prod.mk.injEq] at h
    obtain ⟨rfl, rfl⟩ := h
    exact ⟨⟨hinv1, hinv2⟩, by simp⟩
  · rw [if_neg h0] at h
    by_cases h1 : contains_metadata (pyRstrip line) = true
    · rw [if_pos h1] at h
      rcases hpm : parse_metadata (pyRstrip line) st.params with e | ps <;> simp only [hpm] at h
      · exact absurd h (by simp)
      · rw [Except.ok.injEq, Prod.mk.injEq] at h
        obtain ⟨rfl, rfl⟩ := h
        exact ⟨⟨hinv1, hinv2⟩, by simp⟩
    · rw [if_neg h1] at h
      rcases hpc : get_peak_comment (pyRstrip line) with e | ⟨comment, rl⟩ <;> simp only [hpc] at h
      · exact absurd h (by simp)
      · rcases hpv : get_peak_values rl with e | ⟨mz, ints⟩ <;> simp only [hpv] at h
        · exact absurd h (by simp)
        · have hlen : ints.length = mz.length := get_peak_values_lengths hpv
          rcases hpcs : peakCommentsStep st.peak_comments comment (st.masses ++ mz)
            with e | peakComments <;> simp only [hpcs] at h
          · exact absurd h (by simp)
          · rcases hfind : pyFind st.params "num peaks" with _ | nstr <;> simp only [hfind] at h
            · exact absurd h (by simp)
            · rcases hint : pyInt nstr with _ | n <;> simp only [hint] at h
              · exact absurd h (by simp)
              · by_cases hguard : n = ((st.peakscount + mz.length : ℕ) : ℤ)
                · rw [if_pos hguard] at h
                  rw [Except.ok.injEq, Prod.mk.injEq] at h
                  obtain ⟨rfl, rfl⟩ := h
                  refine ⟨⟨rfl, rfl⟩, ?_⟩
                  intro r hr
                  rw [Option.some.injEq] at hr
                  obtain rfl := hr
                  refine ⟨rfl, nstr, n, hfind, hint, ?_, ?_⟩
                  · rw [hguard]
                    simp only [List.length_append]
                    omega
                  · simp only [List.length_append]
                    omega
                · rw [if_neg hguard] at h
                  rw [Except.ok.injEq, Prod.mk.injEq] at h
                  obtain ⟨rfl, rfl⟩ := h
                  refine ⟨⟨?_, ?_⟩, by simp⟩ <;> simp only [List.length_append] <;> omega

theorem runMspFrom_records {lines : List String} :
    ∀ {st : MspState}, mspInv st → ∀ r, r ∈ (runMspFrom st lines).1 → recordNumPeaksOk r := by
  induction lines with
  | nil => intro st _ r hr; simp [runMspFrom] at hr
  | cons l ls ih =>
      intro st hinv r hr
      unfold runMspFrom at hr
      rcases hpl : processLine st l with e | ⟨st', out⟩ <;> simp only [hpl] at hr
      · exact absurd hr (by simp)
      · obtain ⟨hinv', hrec⟩ := processLine_step hinv hpl
        rcases out with _ | r0
        · exact ih hinv' r hr
        · simp only [List.mem_cons] at hr
          rcases hr with rfl | hr
          · exact (hrec r rfl).2
          · exact ih hinv' r hr

theorem processLine_emit_resets {st : MspState} {line : String} {st' : MspState}
    {r : MspRecord} (h : processLine st line = .ok (st', some r)) :
    st' = initMspState := by
  simp only [processLine] at h
  by_cases h0 : (pyRstrip line).data.isEmpty = true
  · rw [if_pos h0] at h
    exact absurd h (by simp)
  · rw [if_neg h0] at h
    by_cases h1 : contains_metadata (pyRstrip line) = true
    · rw [if_pos h1] at h
      rcases hpm : parse_metadata (pyRstrip line) st.params with e | ps <;>
        simp only [hpm] at h
      · exact absurd h (by simp)
      · exact absurd h (by simp)
    · rw [if_neg h1] at h
      rcases hpc : get_peak_comment (pyRstrip line) with e | ⟨comment, rl⟩ <;>
        simp only [hpc] at h
      · exact absurd h (by simp)
      · rcases hpv : get_peak_values rl with e | ⟨mz, ints⟩ <;> simp only [hpv] at h
        · exact absurd h (by simp)
        · rcases hpcs : peakCommentsStep st.peak_comments comment (st.masses ++ mz)
            with e | peakComments <;> simp only [hpcs] at h
          · exact absurd h (by simp)
          · rcases hfind : pyFind st.params "num peaks" with _ | nstr <;>
              simp only [hfind] at h
            · exact absurd h (by simp)
            · rcases hint : pyInt nstr with _ | n <;> simp only [hint] at h
              · exact absurd h (by simp)
              · by_cases hguard : n = ((st.peakscount + mz.length : ℕ) : ℤ)
                · rw [if_pos hguard] at h
                  rw [Except.ok.injEq, Prod.mk.injEq] at h
                  exact h.1.symm
                · rw [if_neg hguard] at h
                  rw [Except.ok.injEq, Prod.mk.injEq] at h
                  exact absurd h.2 (by simp)

theorem processLine_emits_iff {st : MspState} {line : String} {st' : MspState}
    {out : Option MspRecord} {comment : Option String} {rl : String}
    {mz ints : List ℚ} {s : String} {n : ℤ}
    (hpc : get_peak_comment (pyRstrip line) = .ok (comment, rl))
    (hpv : get_peak_values rl = .ok (mz, ints))
    (hne : (pyRstrip line).data ≠ [])
    (hcm : contains_metadata (pyRstrip line) = false)
    (hfind : pyFind st.params "num peaks" = some s)
    (hint : pyInt s = some n)
    (h : processLine st line = .ok (st', out)) :
    (out.isSome ↔ n = ((st.peakscount + mz.length : ℕ) : ℤ)) := by
  simp only [processLine] at h
  rw [if_neg (by simpa [List.isEmpty_iff] using hne), if_neg (by simp [hcm])] at h
  simp only [hpc, hpv, hfind, hint] at h
  rcases hpcs : peakCommentsStep st.peak_comments comment (st.masses ++ mz)
    with e | peakComments <;> simp only [hpcs] at h
  · exact absurd h (by simp)
  · by_cases hguard : n = ((st.peakscount + mz.length : ℕ) : ℤ)
    · rw [if_pos hguard] at h
      rw [Except.ok.injEq, Prod.mk.injEq] at h
      simp [← h.2, hguard]
    · rw [if_neg hguard] at h
      rw [Except.ok.injEq, Prod.mk.injEq] at h
      simp only [← h.2, Option.isSome_none, Bool.false_eq_true, false_iff]
      omega

/-- C1: every record emitted by the MSP parser carries exactly as many peaks
as its declared `num peaks` metadata value (first conjunct: for every emitted
record, `int(params['num peaks'])` equals the length of both peak arrays);
the accumulators and the counter are reset to the fresh state immediately
after every emission (second conjunct); and on a successfully processed peak
line a record is emitted precisely when the updated running counter equals
the declared value (third conjunct). -/
theorem C1_record_peak_count :
    (∀ lines r, r ∈ (parse_msp_file lines).1 → recordNumPeaksOk r) ∧
    (∀ st line st' r, processLine st line = .ok (st', some r) → st' = initMspState) ∧
    (∀ st line st' out comment rl mz ints s n,
       get_peak_comment (pyRstrip line) = .ok (comment, rl) →
       get_peak_values rl = .ok (mz, ints) →
       (pyRstrip line).data ≠ [] →
       contains_metadata (pyRstrip line) = false →
       pyFind st.params "num peaks" = some s →
       pyInt s = some n →
       processLine st line = .ok (st', out) →
       (out.isSome ↔ n = ((st.peakscount + mz.length : ℕ) : ℤ))) := by
  refine ⟨?_, ?_, ?_⟩
  · intro lines r hr
    exact runMspFrom_records ⟨rfl, rfl⟩ r hr
  · intro st line st' r h
    exact processLine_emit_resets h
  · intro st line st' out comment rl mz ints s n hpc hpv hne hcm hfind hint h
    exact processLine_emits_iff hpc hpv hne hcm hfind hint h

/-- C1, witness: the two-line record `Num Peaks: 2` with peaks `100 1` and
`200 2` is emitted with two peaks, the state resets after an emission, and
the emission guard holds at the concrete emitting step. -/
theorem C1_record_peak_count_witness :
    recordNumPeaksOk ⟨[("name", "a"), ("num peaks", "2")], [100, 200], [1, 2], []⟩ ∧
    (initMspState = initMspState) ∧
    ((some (⟨[("num peaks", "1")], [100], [1], []⟩ : MspRecord)).isSome ↔
      (1 : ℤ) = (((⟨[("num peaks", "1")], [], [], [], 0⟩ : MspState).peakscount +
        [(100 : ℚ)].length : ℕ) : ℤ)) :=
  ⟨C1_record_peak_count.1 ["Name: a", "Num Peaks: 2", "100 1", "200 2"]
     ⟨[("name", "a"), ("num peaks", "2")], [100, 200], [1, 2], []⟩ (by decide),
   C1_record_peak_count.2.1 ⟨[("num peaks", "1")], [], [], [], 0⟩ "100 1" initMspState
     ⟨[("num peaks", "1")], [100], [1], []⟩ (by decide),
   C1_record_peak_count.2.2 ⟨[("num peaks", "1")], [], [], [], 0⟩ "100 1" initMspState
     (some ⟨[("num peaks", "1")], [100], [1], []⟩) none "100 1" [100] [1] "1" 1
     (by decide) (by decide) (by decide) (by decide) (by decide) (by decide) (by decide)⟩

theorem runMspFrom_append_ok (ys : List String) : ∀ {xs : List String} {st : MspState}
    {recs : List MspRecord} {st1 : MspState},
    runMspFrom st xs = (recs, st1, none) →
    runMspFrom st (xs ++ ys) =
      (recs ++ (runMspFrom st1 ys).1, (runMspFrom st1 ys).2.1, (runMspFrom st1 ys).2.2) := by
  intro xs
  induction xs with
  | nil =>
      intro st recs st1 h
      simp only [runMspFrom, Prod.mk.injEq] at h
      obtain ⟨h1, h2, -⟩ := h
      subst h1; subst h2
      simp [runMspFrom]
  | cons l ls ih =>
      intro st recs st1 h
      rw [List.cons_append]
      simp only [runMspFrom] at h ⊢
      rcases hpl : processLine st l with e | ⟨st', out⟩ <;> simp only [hpl] at h ⊢
      · simp at h
      · cases out with
        | none => exact ih h
        | some r0 =>
            simp only [Prod.mk.injEq] at h
            obtain ⟨h1, h2, h3⟩ := h
            have hrun : runMspFrom st' ls =
                ((runMspFrom st' ls).1, (runMspFrom st' ls).2.1, none) :=
              Prod.ext rfl (Prod.ext rfl h3)
            change (r0 :: (runMspFrom st' (ls ++ ys)).1, (runMspFrom st' (ls ++ ys)).2.1,
              (runMspFrom st' (ls ++ ys)).2.2) = _
            rw [ih hrun]
            simp [← h1, ← h2]

theorem processLine_odd_error {st : MspState} {line : String} {comment : Option String}
    {rl : String}
    (hne : (pyRstrip line).data ≠ [])
    (hcm : contains_metadata (pyRstrip line) = false)
    (hpc : get_peak_comment (pyRstrip line) = .ok (comment, rl))
    (hodd : (findNumTokens rl).length % 2 = 1) :
    processLine st line = .error .runtimeError := by
  have hv : get_peak_values rl = .error .runtimeError := by
    simp only [get_peak_values]
    rw [if_pos (by omega)]
  simp only [processLine]
  rw [if_neg (by simpa [List.isEmpty_iff] using hne), if_neg (by simp [hcm])]
  simp only [hpc, hv]

/-- C3: a peak line whose numeric-token count is odd makes `get_peak_values`
raise `RuntimeError`; the error is not caught anywhere, so the stream of
records contains exactly the records completed before the bad line — whatever
follows it is never parsed — and `load_from_msp` surfaces the error to its
consumer instead of converting it into a `None` entry. -/
theorem C3_odd_token_error (pre : List String) (bad : String) (post : List String)
    (recs : List MspRecord) (st1 : MspState) (comment : Option String) (rl : String)
    (hpre : runMspFrom initMspState pre = (recs, st1, none))
    (hne : (pyRstrip bad).data ≠ [])
    (hcm : contains_metadata (pyRstrip bad) = false)
    (hpc : get_peak_comment (pyRstrip bad) = .ok (comment, rl))
    (hodd : (findNumTokens rl).length % 2 = 1) :
    parse_msp_file (pre ++ bad :: post) = (recs, some .runtimeError) ∧
    load_from_msp (pre ++ bad :: post) =
      (recs.map buildSpectrumFromRecord, some .runtimeError) := by
  have herr : processLine st1 bad = .error .runtimeError :=
    processLine_odd_error hne hcm hpc hodd
  have htail : runMspFrom st1 (bad :: post) = ([], st1, some .runtimeError) := by
    unfold runMspFrom
    simp [herr]
  have hall := runMspFrom_append_ok (bad :: post) hpre
  rw [htail] at hall
  constructor
  · unfold parse_msp_file
    rw [hall]
    simp
  · unfold load_from_msp parse_msp_file
    rw [hall]
    simp

/-- C3, witness: after one completed-record-free prefix `Num Peaks: 1`, the
line `1 2 3` (three numeric tokens) aborts the parse with `RuntimeError`; the
following well-formed peak line is never parsed and no `None` entry is
produced. -/
theorem C3_odd_token_error_witness :
    parse_msp_file (["Num Peaks: 1"] ++ "1 2 3" :: ["9 9"]) = ([], some .runtimeError) ∧
    load_from_msp (["Num Peaks: 1"] ++ "1 2 3" :: ["9 9"]) =
      (([] : List MspRecord).map buildSpectrumFromRecord, some .runtimeError) :=
  C3_odd_token_error ["Num Peaks: 1"] "1 2 3" ["9 9"] []
    ⟨[("num peaks", "1")], [], [], [], 0⟩ none "1 2 3"
    (by decide) (by decide) (by decide) (by decide) (by decide)

/-- C6, counterexample: with `num peaks: 1` declared, a single peak line
carrying two (mz, intensity) pairs pushes the running counter to 2, strictly
past the declared count, yet the parse finishes with no error and no emitted
record — the claim's "surfaces a format error to the caller" is false; the
code silently keeps accumulating into the unfinished record. -/
theorem C6_counterexample :
    parse_msp_file ["Num Peaks: 1", "10 20 30 40"] = ([], none) ∧
    (runMspFrom initMspState ["Num Peaks: 1", "10 20 30 40"]).2.1 =
      ⟨[("num peaks", "1")], [10, 30], [20, 40], [], 2⟩ ∧
    pyInt "1" = some 1 ∧ (1 : ℤ) < 2 := by decide

/-- C6, amended: when a successfully processed peak line leaves the updated
counter different from (in particular strictly past) the declared `num peaks`
value, the parser raises no error and emits nothing: the step silently keeps
the extended accumulators and continues. -/
theorem C6_overshoot_silent (st : MspState) (line : String) (rl : String)
    (mz ints : List ℚ) (s : String) (n : ℤ)
    (hne : (pyRstrip line).data ≠ [])
    (hcm : contains_metadata (pyRstrip line) = false)
    (hpc : get_peak_comment (pyRstrip line) = .ok (none, rl))
    (hpv : get_peak_values rl = .ok (mz, ints))
    (hfind : pyFind st.params "num peaks" = some s)
    (hint : pyInt s = some n)
    (hguard : n ≠ ((st.peakscount + mz.length : ℕ) : ℤ)) :
    processLine st line = .ok
      ({ params := st.params, masses := st.masses ++ mz,
         intensities := st.intensities ++ ints, peak_comments := st.peak_comments,
         peakscount := st.peakscount + mz.length }, none) := by
  simp only [processLine]
  rw [if_neg (by simpa [List.isEmpty_iff] using hne), if_neg (by simp [hcm])]
  simp only [hpc, hpv, hfind, hint, peakCommentsStep]
  rw [if_neg hguard]

/-- C6, witness: the amended statement at the concrete overshooting step
(declared count 1, two pairs on one line). -/
theorem C6_overshoot_silent_witness :
    processLine ⟨[("num peaks", "1")], [], [], [], 0⟩ "10 20 30 40" = .ok
      ({ params := [("num peaks", "1")], masses := [10, 30],
         intensities := [20, 40], peak_comments := [], peakscount := 2 }, none) :=
  C6_overshoot_silent ⟨[("num peaks", "1")], [], [], [], 0⟩ "10 20 30 40"
    "10 20 30 40" [10, 30] [20, 40] "1" 1
    (by decide) (by decide) (by decide) (by decide) (by decide) (by decide) (by decide)

/-- C4, counterexample: the line `1 2 'c'` carries a single-quoted substring
(two quote characters), so by the claim the tokenizer should return comment
`c` and succeed; instead `rline.index('"')` raises an uncaught `ValueError`
(only `IndexError` is caught), aborting the peak tokenizer. -/
theorem C4_counterexample :
    ("1 2 'c'".data.filter isQuoteChar).length = 2 ∧
    get_peak_comment "1 2 'c'" = .error .valueError ∧
    _parse_line_with_peaks "1 2 'c'" = .error .valueError := by decide

/-- C4, amended: a line with fewer than two quote characters yields no
comment and is left whole; a line decomposing as `pre ++ q1 :: mid ++ q2 ::
post` with quote characters `q1`, `q2` and quote-free `pre` and `post` yields
the comment `mid` (the text strictly between the first and the last quote
character) with the line truncated to everything before the first double
quote — but only when the line contains a double quote at all; when the
quoting is entirely by single quotes the truncation step raises an uncaught
`ValueError`. -/
theorem C4_comment_amended (l : String) :
    ((l.data.filter isQuoteChar).length < 2 → get_peak_comment l = .ok (none, l)) ∧
    (∀ pre q1 mid q2 post,
       l.data = pre ++ q1 :: (mid ++ q2 :: post) →
       isQuoteChar q1 = true → isQuoteChar q2 = true →
       (∀ c ∈ pre, isQuoteChar c = false) → (∀ c ∈ post, isQuoteChar c = false) →
       (l.data.contains '"' = true →
          get_peak_comment l = .ok (some ⟨mid⟩, ⟨l.data.takeWhile (fun c => c ≠ '"')⟩)) ∧
       (l.data.contains '"' = false → get_peak_comment l = .error .valueError)) := by
  constructor
  · intro hlt
    simp only [get_peak_comment]
    rw [if_pos hlt]
  · intro pre q1 mid q2 post hdec hq1 hq2 hpre hpost
    have hcount : ¬ (l.data.filter isQuoteChar).length < 2 := by
      rw [hdec]
      rw [List.filter_append, List.filter_cons_of_pos hq1, List.filter_append,
          List.filter_cons_of_pos hq2]
      simp
      omega
    have hpre' : ∀ c ∈ pre, (fun c => !isQuoteChar c) c = true := by
      intro c hc; simp [hpre c hc]
    have hafter : (l.data.dropWhile (fun c => !isQuoteChar c)).drop 1 =
        mid ++ q2 :: post := by
      rw [hdec, List.dropWhile_append_of_pos hpre',
          List.dropWhile_cons_of_neg (by simp [hq1])]
      simp
    have hpost' : ∀ c ∈ post.reverse, (fun c => !isQuoteChar c) c = true := by
      intro c hc; simp [hpost c (List.mem_reverse.mp hc)]
    have hcomment :
        ((((l.data.dropWhile (fun c => !isQuoteChar c)).drop 1).reverse.dropWhile
            (fun c => !isQuoteChar c)).drop 1).reverse = mid := by
      rw [hafter, List.reverse_append, List.reverse_cons, List.append_assoc,
          List.dropWhile_append_of_pos hpost']
      rw [List.singleton_append, List.dropWhile_cons_of_neg (by simp [hq2])]
      simp
    constructor
    · intro hdq
      simp only [get_peak_comment]
      rw [if_neg hcount, if_pos hdq, hcomment]
    · intro hdq
      simp only [get_peak_comment]
      rw [if_neg hcount, if_neg (by simpa using hdq)]

/-- C4, witness: the amended statement applied to the double-quoted line
`200.0 0.5 "note here"` (comment extracted, line truncated) and to the
single-quote-only line `1 2 'c'` (ValueError). -/
theorem C4_comment_amended_witness :
    get_peak_comment "200.0 0.5 \"note here\"" = .ok (some "note here", "200.0 0.5 ") ∧
    get_peak_comment "1 2 'c'" = .error .valueError := by
  constructor
  · have h := ((C4_comment_amended "200.0 0.5 \"note here\"").2
      "200.0 0.5 ".data '"' "note here".data '"' []
      (by decide) (by decide) (by decide) (by decide) (by decide)).1 (by decide)
    exact h
  · have h := ((C4_comment_amended "1 2 'c'").2
      "1 2 ".data '\'' "c".data '\'' []
      (by decide) (by decide) (by decide) (by decide) (by decide)).2 (by decide)
    exact h

theorem pyFind_pyInsert_self {κ α : Type} [DecidableEq κ] (m : List (κ × α)) (k : κ) (v : α) :
    pyFind (pyInsert m k v) k = some v := by
  induction m with
  | nil => simp [pyInsert, pyFind]
  | cons kv rest ih =>
      obtain ⟨k', v'⟩ := kv
      by_cases h : k = k' <;> simp [pyInsert, pyFind, h, ih]

theorem pyFind_pyInsert_ne {κ α : Type} [DecidableEq κ] (m : List (κ × α)) (k k' : κ) (v : α)
    (hne : k ≠ k') : pyFind (pyInsert m k' v) k = pyFind m k := by
  induction m with
  | nil => simp [pyInsert, pyFind, hne]
  | cons kv rest ih =>
      obtain ⟨k'', v''⟩ := kv
      by_cases h : k' = k''
      · subst h
        simp [pyInsert, pyFind, hne]
      · by_cases h2 : k = k'' <;> simp [pyInsert, pyFind, h, h2, ih]

/-- C5, counterexample: a repeated scalar metadata key is overwritten — the
earlier value is lost — and even a repeated `smiles` key is overwritten when
it arrives as a scalar `smiles:` line (the `smiles_2` rule lives only inside
the nested Comments scan). -/
theorem C5_counterexample :
    parse_metadata "name: b" [("name", "a")] = .ok [("name", "b")] ∧
    parse_metadata "smiles: B" [("smiles", "A")] = .ok [("smiles", "B")] := by decide

/-- C5, amended: only the key `smiles`, and only during the nested Comments
token scan, is protected against overwriting — a second nested `smiles` token
is stored under `smiles_2` with the original preserved (first conjunct);
every other nested duplicate key overwrites the earlier value (second
conjunct); and every scalar metadata line stores `key: value` by plain dict
assignment, overwriting any earlier value of that key (third conjunct). -/
theorem C5_duplicate_keys_amended :
    (∀ (params : List (String × String)) (gs : List String) (key value : String)
       (restg : List String) (w : String),
       gs.filter (fun g => g ≠ "") = key :: value :: restg →
       pyLower key = "smiles" →
       pyFind params "smiles" = some w →
       pyFind (applyNestedMatch params gs) "smiles" = some w ∧
       pyFind (applyNestedMatch params gs) "smiles_2" = some (pyStrip value)) ∧
    (∀ (params : List (String × String)) (gs : List String) (key value : String)
       (restg : List String),
       gs.filter (fun g => g ≠ "") = key :: value :: restg →
       pyStrip (pyLower key) ≠ "smiles" →
       applyNestedMatch params gs =
         pyInsert params (pyStrip (pyLower key)) (pyStrip value) ∧
       pyFind (applyNestedMatch params gs) (pyStrip (pyLower key)) =
         some (pyStrip value)) ∧
    (∀ (rline : String) (params : List (String × String)),
       rline.data.contains ':' = true →
       pyLower ⟨rline.data.takeWhile (fun c => c ≠ ':')⟩ ≠ "comments" →
       parse_metadata rline params = .ok
         (pyInsert params (pyLower ⟨rline.data.takeWhile (fun c => c ≠ ':')⟩)
           (pyStrip ⟨(rline.data.dropWhile (fun c => c ≠ ':')).drop 1⟩)) ∧
       pyFind (pyInsert params (pyLower ⟨rline.data.takeWhile (fun c => c ≠ ':')⟩)
           (pyStrip ⟨(rline.data.dropWhile (fun c => c ≠ ':')).drop 1⟩))
         (pyLower ⟨rline.data.takeWhile (fun c => c ≠ ':')⟩) =
         some (pyStrip ⟨(rline.data.dropWhile (fun c => c ≠ ':')).drop 1⟩)) := by
  refine ⟨?_, ?_, ?_⟩
  · intro params gs key value restg w hfilter hlow hw
    have hstrip : pyStrip (pyLower key) = "smiles" := by rw [hlow]; decide
    simp only [applyNestedMatch, hfilter]
    rw [if_pos ⟨by simp [hstrip, hw], hstrip⟩]
    have happ : pyLower key ++ "_2" = "smiles_2" := by rw [hlow]; rfl
    rw [happ]
    constructor
    · rw [pyFind_pyInsert_ne _ _ _ _ (by decide)]
      exact hw
    · exact pyFind_pyInsert_self _ _ _
  · intro params gs key value restg hfilter hne
    simp only [applyNestedMatch, hfilter]
    rw [if_neg (fun hcontra => hne hcontra.2)]
    exact ⟨rfl, pyFind_pyInsert_self _ _ _⟩
  · intro rline params hcolon hkey
    constructor
    · simp only [parse_metadata]
      rw [if_pos hcolon]
      have hcond : ¬(pyLower (⟨rline.data.takeWhile (fun c => c ≠ ':')⟩ : String) = "comments" ∧
          ((rline.data.dropWhile (fun c => c ≠ ':')).drop 1).contains '=' = true) :=
        fun hc => hkey hc.1
      rw [if_neg hcond]
      simp
    · exact pyFind_pyInsert_self _ _ _

/-- C5, witness: the amended statement at concrete inputs — a second nested
`smiles` token lands in `smiles_2` with the original kept; a nested duplicate
`foo` token overwrites; a scalar `name: b` line overwrites. -/
theorem C5_duplicate_keys_amended_witness :
    (pyFind (applyNestedMatch [("smiles", "A")]
        ["smiles", "B", "", "", "", "", "", ""]) "smiles" = some "A" ∧
     pyFind (applyNestedMatch [("smiles", "A")]
        ["smiles", "B", "", "", "", "", "", ""]) "smiles_2" = some "B") ∧
    (applyNestedMatch [("foo", "1")] ["", "", "", "", "", "", "foo", "2"] =
       pyInsert [("foo", "1")] (pyStrip (pyLower "foo")) (pyStrip "2") ∧
     pyFind (applyNestedMatch [("foo", "1")] ["", "", "", "", "", "", "foo", "2"])
       (pyStrip (pyLower "foo")) = some (pyStrip "2")) ∧
    (parse_metadata "name: b" [("name", "a")] = .ok
       (pyInsert [("name", "a")] (pyLower ⟨"name: b".data.takeWhile (fun c => c ≠ ':')⟩)
         (pyStrip ⟨("name: b".data.dropWhile (fun c => c ≠ ':')).drop 1⟩)) ∧
     pyFind (pyInsert [("name", "a")]
         (pyLower ⟨"name: b".data.takeWhile (fun c => c ≠ ':')⟩)
         (pyStrip ⟨("name: b".data.dropWhile (fun c => c ≠ ':')).drop 1⟩))
       (pyLower ⟨"name: b".data.takeWhile (fun c => c ≠ ':')⟩) =
       some (pyStrip ⟨("name: b".data.dropWhile (fun c => c ≠ ':')).drop 1⟩)) :=
  ⟨by
    have h := C5_duplicate_keys_amended.1 [("smiles", "A")]
      ["smiles", "B", "", "", "", "", "", ""] "smiles" "B" [] "A"
      (by decide) (by decide) (by decide)
    simpa using h,
   C5_duplicate_keys_amended.2.1 [("foo", "1")] ["", "", "", "", "", "", "foo", "2"]
     "foo" "2" [] (by decide) (by decide),
   C5_duplicate_keys_amended.2.2 "name: b" [("name", "a")] (by decide) (by decide)⟩

/-- C7, counterexample: a spectrum whose `precursor_mz` metadata value is the
unparsable string `"abc"` makes `add_precursor_mz` raise `ValueError`
(`float(precursor_mz.strip())` has no try/except around it), contradicting
"the filter never raises, and the target field is set to None instead". -/
theorem C7_counterexample :
    add_precursor_mz (some ⟨⟨[100], [1]⟩, none, [("precursor_mz", .str "abc")]⟩) =
      .error .valueError := by decide

/-- C7, amended: retention-time harmonization recovers conversion failures
locally — `_safe_convert_to_float` yields `None` for plain negative values
(second conjunct) and for strings that match no unit pattern and fail float
conversion (third conjunct), never raising — but `add_precursor_mz` is not
recovered: a precursor-m/z string that cannot be parsed as a float raises an
uncaught `ValueError` (first conjunct). -/
theorem C7_conversion_amended :
    (∀ (sIn : PySpectrum) (k v : String),
       get_first_common_element ((cloneSpectrum sIn).metadata.map Prod.fst)
         _accepted_keys = some k →
       spectrumGet (cloneSpectrum sIn) k = some (.str v) →
       pyFloat (pyStrip v) = none →
       add_precursor_mz (some sIn) = .error .valueError) ∧
    (∀ q : ℚ, q < 0 → _safe_convert_to_float (.float q) = none) ∧
    (∀ s : String, rtUnitMatch (pyStrip s).data = false →
       pyFloat (pyStrip s) = none → _safe_convert_to_float (.str s) = none) := by
  refine ⟨?_, ?_, ?_⟩
  · intro sIn k v hkey hval hfloat
    simp only [add_precursor_mz, hkey, hval, hfloat]
  · intro q hq
    simp only [_safe_convert_to_float, genericFloatNonNeg, pyFloatOfVal]
    rw [if_neg (not_le.mpr hq)]
  · intro s hrt hfloat
    simp only [_safe_convert_to_float]
    rw [if_neg (by simp [hrt])]
    simp only [genericFloatNonNeg, pyFloatOfVal, hfloat]

/-- C7, witness: the amended statement at `"abc"` as precursor string
(ValueError), `-5` as retention value (None), and `"abc"` as retention
string (None). -/
theorem C7_conversion_amended_witness :
    add_precursor_mz (some ⟨⟨[100], [1]⟩, none, [("precursor_mz", .str "abc")]⟩) =
      .error .valueError ∧
    _safe_convert_to_float (.float (-5)) = none ∧
    _safe_convert_to_float (.str "abc") = none :=
  ⟨C7_conversion_amended.1 ⟨⟨[100], [1]⟩, none, [("precursor_mz", .str "abc")]⟩
     "precursor_mz" "abc" (by decide) (by decide) (by decide),
   C7_conversion_amended.2.1 (-5) (by decide),
   C7_conversion_amended.2.2 "abc" (by decide) (by decide)⟩

theorem pyFind_isSome_iff {κ α : Type} [DecidableEq κ] (m : List (κ × α)) (k : κ) :
    (pyFind m k).isSome ↔ ∃ v, (k, v) ∈ m := by
  induction m with
  | nil => simp [pyFind]
  | cons kv rest ih =>
      obtain ⟨k', v'⟩ := kv
      by_cases h : k = k'
      · subst h; simp [pyFind]
      · simp [pyFind, h, ih, Prod.ext_iff]

theorem valuesEqPositional_iff (l1 l2 : List PyVal) :
    valuesEqPositional l1 l2 = true ↔
      List.Forall₂ (fun v w => metaValueEq v w = true) l1 l2 := by
  induction l1 generalizing l2 with
  | nil => cases l2 <;> simp [valuesEqPositional]
  | cons v vs ih =>
      cases l2 with
      | nil => simp [valuesEqPositional]
      | cons w ws => simp [valuesEqPositional, ih, Bool.and_eq_true]

theorem metadataEqB_iff (m1 m2 : List (String × PyVal)) :
    metadataEqB m1 m2 = true ↔
      ((∀ k, (pyFind m1 k).isSome ↔ (pyFind m2 k).isSome) ∧
       List.Forall₂ (fun v w => metaValueEq v w = true)
         (m1.map Prod.snd) (m2.map Prod.snd)) := by
  unfold metadataEqB
  simp only [decide_eq_true_eq, List.all_eq_true, valuesEqPositional_iff]
  constructor
  · rintro ⟨⟨h12, h21⟩, hvals⟩
    refine ⟨fun k => ⟨fun hk => ?_, fun hk => ?_⟩, hvals⟩
    · obtain ⟨v, hv⟩ := (pyFind_isSome_iff m1 k).mp hk
      exact h12 (k, v) hv
    · obtain ⟨v, hv⟩ := (pyFind_isSome_iff m2 k).mp hk
      exact h21 (k, v) hv
  · rintro ⟨hkeys, hvals⟩
    refine ⟨⟨fun kv hkv => ?_, fun kv hkv => ?_⟩, hvals⟩
    · exact (hkeys kv.1).mp ((pyFind_isSome_iff m1 kv.1).mpr ⟨kv.2, hkv⟩)
    · exact (hkeys kv.1).mpr ((pyFind_isSome_iff m2 kv.1).mpr ⟨kv.2, hkv⟩)

/-- C8, counterexample: two spectra with identical peaks, identical losses
and metadata dicts that are equal as mappings (`a ↦ "1"`, `b ↦ "2"`) but were
built in different insertion orders compare UNEQUAL under `Spectrum.__eq__`,
because the values are compared by position, not by key. -/
theorem C8_counterexample :
    spectrumEq ⟨⟨[100], [1]⟩, none, [("a", .str "1"), ("b", .str "2")]⟩
               ⟨⟨[100], [1]⟩, none, [("b", .str "2"), ("a", .str "1")]⟩ = false ∧
    (∀ k, pyFind [("a", PyVal.str "1"), ("b", PyVal.str "2")] k =
          pyFind [("b", PyVal.str "2"), ("a", PyVal.str "1")] k) ∧
    spikesEq ⟨[100], [1]⟩ ⟨[100], [1]⟩ = true ∧
    lossesEq none none = true := by
  refine ⟨by decide, ?_, by decide, by decide⟩
  intro k
  by_cases h1 : k = "a"
  · subst h1; decide
  · by_cases h2 : k = "b"
    · subst h2; decide
    · simp [pyFind, h1, h2]

/-- C8, amended: `Spectrum.__eq__` holds exactly when the peak lists and
losses are equal, the metadata KEY sets are equal (order-insensitively), and
the metadata VALUE sequences are equal position by position in insertion
order (numpy-array values element-wise, everything else by ordinary
equality); metadata equal as mappings but inserted in different orders can
therefore compare unequal. -/
theorem C8_spectrum_eq_amended (a b : PySpectrum) :
    spectrumEq a b = true ↔
      (spikesEq a.peaks b.peaks = true ∧ lossesEq a.losses b.losses = true ∧
       (∀ k, (pyFind a.metadata k).isSome ↔ (pyFind b.metadata k).isSome) ∧
       List.Forall₂ (fun v w => metaValueEq v w = true)
         (a.metadata.map Prod.snd) (b.metadata.map Prod.snd)) := by
  unfold spectrumEq
  simp [Bool.and_eq_true, metadataEqB_iff, and_assoc]

theorem getD_append_length {α : Type} (d : α) :
    ∀ (pre : List α) (m : α) (rest : List α), (pre ++ m :: rest).getD pre.length d = m := by
  intro pre
  induction pre with
  | nil => intro m rest; simp
  | cons x xs ih => intro m rest; simpa using ih m rest

theorem findIdx_prefix_false :
    ∀ (pre rest : List Bool), (∀ b ∈ pre, b = false) →
      (pre ++ true :: rest).findIdx (fun b => b) = pre.length := by
  intro pre
  induction pre with
  | nil => intro rest _; simp [List.findIdx_cons]
  | cons b bs ih =>
      intro rest hall
      have hb : b = false := hall b (by simp)
      simp only [List.cons_append, List.findIdx_cons, hb]
      simp [ih rest (fun x hx => hall x (by simp [hx]))]

unseal Rat.sub Rat.add Rat.mul Rat.inv in
/-- C9, counterexample: replacing the peak list of a spectrum whose comment
key 1000000 is absent from the new mz array `[1000006, 1000003]` migrates the
comment to 1000006 — the FIRST new m/z within tolerance — although 1000003 is
also within tolerance and strictly closer; the claim's "closest matching new
m/z value" is false (`isclose(...).argmax()` picks the first close entry, not
the nearest). -/
theorem C9_counterexample :
    setPeaks ⟨⟨[1000000], [1]⟩, none, [("peak_comments", .qdict [(1000000, "c")])]⟩
        ⟨[1000006, 1000003], [1, 1]⟩ =
      ⟨⟨[1000006, 1000003], [1, 1]⟩, none,
        [("peak_comments", .qdict [(1000006, "c")])]⟩ ∧
    npIsclose 1000000 1000003 peakCommentsMzTolerance = true ∧
    npIsclose 1000000 1000006 peakCommentsMzTolerance = true ∧
    |(1000000 : ℚ) - 1000003| < |(1000000 : ℚ) - 1000006| := by decide

/-- C9, amended: when the peak list is replaced, a comment whose key is
absent from the new mz array migrates to the FIRST (lowest-index) new m/z
within numpy's isclose tolerance `|old − new| ≤ 1e-8 + rtol·|new|` (relative
part scaled by the new value, rtol defaulting to 1e-5) — not necessarily the
closest one (second conjunct); a comment whose key has no new m/z within that
tolerance is dropped (first conjunct). -/
theorem C9_reiterate_amended :
    (∀ (newMz : List ℚ) (rtol : ℚ) (d : List (ℚ × String)) (key : ℚ),
       newMz.contains key = false →
       (∀ m ∈ newMz, npIsclose key m rtol = false) →
       reiterateStep newMz rtol d key = pyPop d key) ∧
    (∀ (pre : List ℚ) (m : ℚ) (rest : List ℚ) (rtol : ℚ) (d : List (ℚ × String))
       (key : ℚ) (c : String),
       (pre ++ m :: rest).contains key = false →
       (∀ x ∈ pre, npIsclose key x rtol = false) →
       npIsclose key m rtol = true →
       pyFind d key = some c →
       pyFind d m = none →
       reiterateStep (pre ++ m :: rest) rtol d key = pyPop (pyInsert d m c) key) := by
  constructor
  · intro newMz rtol d key hmem hall
    simp only [reiterateStep]
    rw [if_neg (by simpa using hmem)]
    have hflags : true ∉ newMz.map (fun m => npIsclose key m rtol) := by
      simp only [List.mem_map]
      rintro ⟨x, hx, hfx⟩
      rw [hall x hx] at hfx
      exact Bool.false_ne_true hfx
    rw [if_neg (by simpa using hflags)]
  · intro pre m rest rtol d key c hmem hpre hm hkey hnew
    simp only [reiterateStep]
    rw [if_neg (by simpa using hmem)]
    have hmap : (pre ++ m :: rest).map (fun x => npIsclose key x rtol) =
        pre.map (fun x => npIsclose key x rtol) ++
          true :: rest.map (fun x => npIsclose key x rtol) := by
      rw [List.map_append, List.map_cons, hm]
    have hpre' : ∀ b ∈ pre.map (fun x => npIsclose key x rtol), b = false := by
      intro b hb
      obtain ⟨x, hx, rfl⟩ := List.mem_map.mp hb
      exact hpre x hx
    have hcontains : ((pre ++ m :: rest).map (fun x => npIsclose key x rtol)).contains true =
        true := by
      rw [hmap]
      simp
    rw [if_pos (by simpa using hcontains)]
    have hidx : argmaxBool ((pre ++ m :: rest).map (fun x => npIsclose key x rtol)) =
        pre.length := by
      unfold argmaxBool
      rw [if_pos hcontains, hmap, findIdx_prefix_false _ _ hpre']
      simp
    rw [hidx, getD_append_length, hkey, hnew]

unseal Rat.sub Rat.add Rat.mul Rat.inv in
/-- C9, witness: the amended statement at concrete inputs — a key with no
tolerant new m/z is dropped, and a key with two candidates (a far one first)
migrates to the first tolerant candidate. -/
theorem C9_reiterate_amended_witness :
    reiterateStep [100] peakCommentsMzTolerance [(5, "x")] 5 = pyPop [(5, "x")] 5 ∧
    reiterateStep [999, 1000006] peakCommentsMzTolerance [(1000000, "c")] 1000000 =
      pyPop (pyInsert [(1000000, "c")] 1000006 "c") 1000000 :=
  ⟨C9_reiterate_amended.1 [100] peakCommentsMzTolerance [(5, "x")] 5
     (by decide) (by decide),
   C9_reiterate_amended.2 [999] 1000006 [] peakCommentsMzTolerance [(1000000, "c")]
     1000000 "c" (by decide) (by decide) (by decide) (by decide) (by decide)⟩

theorem pyInsert_of_find {κ α : Type} [DecidableEq κ] :
    ∀ (m : List (κ × α)) (k : κ) (v : α), pyFind m k = some v → pyInsert m k v = m := by
  intro m
  induction m with
  | nil => intro k v h; simp [pyFind] at h
  | cons kv rest ih =>
      intro k v h
      obtain ⟨k', v'⟩ := kv
      by_cases hk : k = k'
      · subst hk
        simp only [pyFind, if_true, reduceIte, Option.some.injEq] at h
        simp [pyInsert, h]
      · simp only [pyFind, if_neg hk] at h
        simp [pyInsert, hk, ih k v h]

theorem foldl_reiterate_id (mz : List ℚ) (rtol : ℚ) :
    ∀ (keys : List ℚ) (d : List (ℚ × String)), (∀ key ∈ keys, mz.contains key = true) →
      keys.foldl (reiterateStep mz rtol) d = d := by
  intro keys
  induction keys with
  | nil => intro d _; rfl
  | cons key ks ih =>
      intro d hall
      have hstep : reiterateStep mz rtol d key = d := by
        unfold reiterateStep
        rw [if_pos (hall key (by simp))]
      rw [List.foldl_cons, hstep]
      exact ih d (fun x hx => hall x (by simp [hx]))

theorem cloneSpectrum_get_ne (s : PySpectrum) (k : String) (hk : k ≠ "peak_comments") :
    spectrumGet (cloneSpectrum s) k = spectrumGet s k := by
  unfold spectrumGet cloneSpectrum mkSpectrum setPeaks
  rcases hfind : pyFind s.metadata "peak_comments" with _ | v
  · simp [hfind]
  · cases v <;> simp only [hfind]
    unfold _reiterate_peak_comments
    rw [hfind]
    exact pyFind_pyInsert_ne _ _ _ _ hk

unseal Rat.sub Rat.add Rat.mul Rat.inv in
/-- C10, counterexample: for a spectrum whose `smiles` value `"C"` has no dot
the salt search is indeed skipped, but the returned spectrum is NOT equal to
the input: the clone re-runs `Spectrum.__init__`, whose peaks setter re-keys
the `peak_comments` metadata dict against the spectrum's own mz array, and a
stale comment key (5, absent from mz `[100]`) is dropped on the way. -/
theorem C10_counterexample :
    repair_smiles_of_salts (fun _ => 0) (some ⟨⟨[100], [1]⟩, none,
        [("smiles", .str "C"), ("peak_comments", .qdict [(5, "x")])]⟩) (1 / 10) =
      .ok (some ⟨⟨[100], [1]⟩, none,
        [("smiles", .str "C"), ("peak_comments", .qdict [])]⟩) ∧
    "C".data.contains '.' = false ∧
    spectrumEq
      ⟨⟨[100], [1]⟩, none, [("smiles", .str "C"), ("peak_comments", .qdict [])]⟩
      ⟨⟨[100], [1]⟩, none, [("smiles", .str "C"), ("peak_comments", .qdict [(5, "x")])]⟩
      = false := by decide

/-- C10, amended: `repair_smiles_of_salts` maps `None` to `None` (first
conjunct); for a spectrum whose `smiles` value is a dot-free string the ion
search is skipped entirely and the result is exactly the clone of the input,
with no `salt_ions` key added (second conjunct); and the clone equals the
input whenever every `peak_comments` key occurs in the spectrum's own mz
array — in particular whenever `peak_comments` is absent or not a dict —
(third conjunct); only spectra carrying stale peak-comment keys are altered
by the cloning step. -/
theorem C10_salt_skip_amended :
    (∀ (massFn : String → ℚ) (tol : ℚ),
       repair_smiles_of_salts massFn none tol = .ok none) ∧
    (∀ (massFn : String → ℚ) (tol : ℚ) (s : PySpectrum) (smiles : String),
       spectrumGet s "smiles" = some (.str smiles) →
       smiles.data.contains '.' = false →
       repair_smiles_of_salts massFn (some s) tol = .ok (some (cloneSpectrum s))) ∧
    (∀ s : PySpectrum, peakCommentKeysInMz s = true → cloneSpectrum s = s) := by
  refine ⟨fun _ _ => rfl, ?_, ?_⟩
  · intro massFn tol s smiles hsm hdot
    have hions : create_possible_ions smiles = [] := by
      unfold create_possible_ions
      rw [if_neg (by simpa using hdot)]
    simp only [repair_smiles_of_salts]
    rw [cloneSpectrum_get_ne s "smiles" (by decide), hsm]
    dsimp only
    rw [hions]
    rfl
  · intro s h
    obtain ⟨⟨mz0, int0⟩, losses0, md0⟩ := s
    unfold peakCommentKeysInMz at h
    unfold cloneSpectrum mkSpectrum setPeaks
    rcases hfind : pyFind md0 "peak_comments" with _ | v
    · simp [hfind]
    · rw [hfind] at h
      cases v <;> (simp only [hfind]; try rfl)
      case qdict d =>
        unfold _reiterate_peak_comments
        simp only [hfind]
        rw [foldl_reiterate_id _ _ _ _ ?_]
        · rw [pyInsert_of_find md0 "peak_comments" _ hfind]
        · intro key hkey
          obtain ⟨kv, hkv, rfl⟩ := List.mem_map.mp hkey
          exact (List.all_eq_true.mp h) kv hkv

/-- C10, witness: the amended statement at a dot-free spectrum with no
peak comments — the filter returns the clone, and the clone equals the
input. -/
theorem C10_salt_skip_amended_witness :
    repair_smiles_of_salts (fun _ => 0)
        (some ⟨⟨[100], [1]⟩, none, [("smiles", .str "CCO")]⟩) (1 / 10) =
      .ok (some (cloneSpectrum ⟨⟨[100], [1]⟩, none, [("smiles", .str "CCO")]⟩)) ∧
    cloneSpectrum ⟨⟨[100], [1]⟩, none, [("smiles", .str "CCO")]⟩ =
      ⟨⟨[100], [1]⟩, none, [("smiles", .str "CCO")]⟩ :=
  ⟨C10_salt_skip_amended.2.1 (fun _ => 0) (1 / 10)
     ⟨⟨[100], [1]⟩, none, [("smiles", .str "CCO")]⟩ "CCO" (by decide) (by decide),
   C10_salt_skip_amended.2.2 ⟨⟨[100], [1]⟩, none, [("smiles", .str "CCO")]⟩ (by decide)⟩
